import Mathlib

/-!
Shallow embedding of the tf transform buffer (src/src/buffer.rs, src/src/chain.rs).
Scalars (f64 in the source) are modelled as exact rationals; machine times
(rosrust::Time, sec/nsec u32) as pairs of naturals compared through their
nanosecond value.  Fallible Rust calls are modelled by `PResult`, whose
`crash` constructor stands for a Rust panic (failed `unwrap` / index underflow).
Collaborator code that lives in this repository but outside src/ (crate::transforms,
crate::utils, crate::core, crate::msg) is modelled from the spec, as marked.
-/

namespace RustTf

/-- Exact-rational model of the f64 scalar components. -/
abbrev Scalar := ℚ

/-- msg::Quaternion (x, y, z, w). -/
structure Quaternion where
  x : Scalar
  y : Scalar
  z : Scalar
  w : Scalar
deriving DecidableEq

/-- msg::Vector3. -/
structure Vector3 where
  x : Scalar
  y : Scalar
  z : Scalar
deriving DecidableEq

/-- msg::Transform: rotation quaternion + translation vector. -/
structure Transform where
  rotation : Quaternion
  translation : Vector3
deriving DecidableEq

/-- rosrust::Time { sec: u32, nsec: u32 }. -/
structure Time where
  sec : Nat
  nsec : Nat
deriving DecidableEq

/-- Total nanosecond value of a timestamp (signed, as used by duration arithmetic). -/
def Time.toNanos (t : Time) : Int := (t.sec : Int) * 1000000000 + (t.nsec : Int)

/-- std_msgs Header: seq, stamp, frame_id. -/
structure Header where
  seq : Nat
  stamp : Time
  frame_id : String
deriving DecidableEq

/-- msg::TransformStamped. -/
structure TransformStamped where
  header : Header
  child_frame_id : String
  transform : Transform
deriving DecidableEq

instance : Inhabited TransformStamped :=
  ⟨{ header := { seq := 0, stamp := ⟨0, 0⟩, frame_id := "" },
     child_frame_id := "",
     transform := { rotation := ⟨0, 0, 0, 1⟩, translation := ⟨0, 0, 0⟩ } }⟩

/-- Stamp of a stored sample, in nanoseconds. -/
def stampNanos (m : TransformStamped) : Int := m.header.stamp.toNanos

/-- Modelled from the spec (§6): ordering of stored samples is by timestamp
(the msg comparison used by the source's binary search lives outside src/). -/
def stampLE (a b : TransformStamped) : Prop := stampNanos a ≤ stampNanos b

instance : DecidableRel stampLE := fun _ _ => Int.decLe _ _

/-- Modelled from the spec (§7): error kinds of crate::core::TfError (outside src/).
The source only ever constructs the first three; `InternalInconsistency` is the
kind the spec demands for a diverged index/edge-map. -/
inductive TfError
  | CouldNotFindTransform
  | AttemptedLookupInPast
  | AttemptedLookUpInFuture
  | InternalInconsistency
deriving DecidableEq

/-- Outcome of a fallible Rust computation: a value, a typed error, or a panic
(`crash` models a failed `unwrap` or an out-of-bounds index). -/
inductive PResult (α : Type)
  | crash
  | error (e : TfError)
  | ok (a : α)
deriving DecidableEq

/-! ### TransformMath collaborator (crate::transforms / crate::utils, outside src/) -/

/-- Modelled from the spec (§3, §6): Hamilton product of quaternions, the standard
rotation composition for unit quaternions. -/
def qmul (a b : Quaternion) : Quaternion :=
  { x := a.w * b.x + a.x * b.w + a.y * b.z - a.z * b.y
    y := a.w * b.y - a.x * b.z + a.y * b.w + a.z * b.x
    z := a.w * b.z + a.x * b.y - a.y * b.x + a.z * b.w
    w := a.w * b.w - a.x * b.x - a.y * b.y - a.z * b.z }

/-- Quaternion conjugate (inverse of a unit quaternion). -/
def qconj (a : Quaternion) : Quaternion := { x := -a.x, y := -a.y, z := -a.z, w := a.w }

/-- Rotation of a vector by a unit quaternion: the vector part of q * v * conj q. -/
def qrotate (q : Quaternion) (v : Vector3) : Vector3 :=
  let p := qmul (qmul q { x := v.x, y := v.y, z := v.z, w := 0 }) (qconj q)
  { x := p.x, y := p.y, z := p.z }

def vadd (a b : Vector3) : Vector3 := { x := a.x + b.x, y := a.y + b.y, z := a.z + b.z }

def vneg (a : Vector3) : Vector3 := { x := -a.x, y := -a.y, z := -a.z }

def identityTransform : Transform :=
  { rotation := ⟨0, 0, 0, 1⟩, translation := ⟨0, 0, 0⟩ }

/-- Modelled from the spec (§6): binary rigid-transform composition
(apply `a`, then `b` expressed in `a`'s child frame). -/
def compose (a b : Transform) : Transform :=
  { rotation := qmul a.rotation b.rotation
    translation := vadd a.translation (qrotate a.rotation b.translation) }

/-- Modelled from the spec (§6): crate::transforms::chain_transforms,
left-to-right chaining; empty list composes to the identity (§4.3). -/
def chain_transforms (l : List Transform) : Transform :=
  l.foldl compose identityTransform

/-- Modelled from the spec (§4.3, §6): crate::transforms::invert_transform,
standard rigid-transform inverse. -/
def invert_transform (t : Transform) : Transform :=
  { rotation := qconj t.rotation
    translation := vneg (qrotate (qconj t.rotation) t.translation) }

/-- Modelled from the spec (§6): crate::transforms::interpolate, a componentwise
linear blend where `w` is the share given to the first argument (the exact
rotation-interpolation law is left open by the spec; the core only fixes the
weighting convention, which is all the claims reference). -/
def interpolate (a b : Transform) (w : Scalar) : Transform :=
  { rotation :=
      { x := w * a.rotation.x + (1 - w) * b.rotation.x
        y := w * a.rotation.y + (1 - w) * b.rotation.y
        z := w * a.rotation.z + (1 - w) * b.rotation.z
        w := w * a.rotation.w + (1 - w) * b.rotation.w }
    translation :=
      { x := w * a.translation.x + (1 - w) * b.translation.x
        y := w * a.translation.y + (1 - w) * b.translation.y
        z := w * a.translation.z + (1 - w) * b.translation.z } }

/-- Modelled from the spec (§4.2, §4.3) and the repository tests:
crate::utils::to_transform_stamped builds a StampedTransform from a transform,
parent frame, child frame and stamp (seq 0, per the time-travel test). -/
def to_transform_stamped (t : Transform) (frame_id child_frame_id : String) (time : Time) :
    TransformStamped :=
  { header := { seq := 0, stamp := time, frame_id := frame_id },
    child_frame_id := child_frame_id,
    transform := t }

/-- Modelled from the spec (§4.3): crate::utils::get_inverse swaps the
parent/child roles and inverts rotation and translation, keeping the stamp. -/
def get_inverse (m : TransformStamped) : TransformStamped :=
  { header := { seq := m.header.seq, stamp := m.header.stamp, frame_id := m.child_frame_id },
    child_frame_id := m.header.frame_id,
    transform := invert_transform m.transform }

/-! ### TfIndividualTransformChain (src/src/chain.rs) -/

/-- src/src/chain.rs lines 10-16. -/
structure TfIndividualTransformChain where
  buffer_size : Nat
  static_tf : Bool
  transform_chain : List TransformStamped
deriving DecidableEq

/-- src/src/chain.rs lines 20-22. -/
def TfIndividualTransformChain.new (static_tf : Bool) : TfIndividualTransformChain :=
  { buffer_size := 100, static_tf := static_tf, transform_chain := [] }

/-- The insertion performed by add_to_buffer (chain.rs lines 26-31): a
`binary_search` by timestamp followed by `insert` at the reported position,
i.e. insertion before the first element with a stamp not smaller than the
new one. -/
def insertByStamp (m : TransformStamped) : List TransformStamped → List TransformStamped
  | [] => [m]
  | x :: xs =>
      if stampNanos m ≤ stampNanos x then m :: x :: xs else x :: insertByStamp m xs

/-- src/src/chain.rs lines 24-36: sorted insertion, then drop the element at
position 0 when the length exceeds buffer_size. -/
def TfIndividualTransformChain.add_to_buffer (c : TfIndividualTransformChain)
    (m : TransformStamped) : TfIndividualTransformChain :=
  let l := insertByStamp m c.transform_chain
  { c with transform_chain := if l.length > c.buffer_size then l.drop 1 else l }

/-- Index of the first stored sample whose stamp equals `t` (length if none):
the `Ok` side of the source's binary search by timestamp (chain.rs line 60). -/
def idxOfStamp (t : Int) : List TransformStamped → Nat
  | [] => 0
  | x :: xs => if stampNanos x = t then 0 else idxOfStamp t xs + 1

/-- Number of stored samples whose stamp is strictly below `t`: on a
timestamp-sorted chain this is the insertion point of the source's binary
search (the `Err` side, chain.rs line 60). -/
def countBefore (t : Int) : List TransformStamped → Nat
  | [] => 0
  | x :: xs => (if stampNanos x < t then 1 else 0) + countBefore t xs

/-- src/src/chain.rs lines 38-84.  The static branch indexes `len - 1` without
a guard, which panics (`crash`) on an empty chain.  The dynamic branch binary
searches by timestamp and either returns the exact sample, fails past/future,
or interpolates between the two bracketing samples. -/
def TfIndividualTransformChain.get_closest_transform (c : TfIndividualTransformChain)
    (time : Time) : PResult TransformStamped :=
  if c.static_tf then
    match c.transform_chain.getLast? with
    | some m => .ok m
    | none => .crash
  else
    let ch := c.transform_chain
    let i := idxOfStamp time.toNanos ch
    if i < ch.length then .ok (ch.getD i default)
    else
      let x := countBefore time.toNanos ch
      if x = 0 then .error .AttemptedLookupInPast
      else if ch.length ≤ x then .error .AttemptedLookUpInFuture
      else
        let tf1 := ch.getD (x - 1) default
        let tf2 := ch.getD x default
        let total : Scalar := ((stampNanos tf2 - stampNanos tf1 : Int) : Scalar)
        let desired : Scalar := ((time.toNanos - stampNanos tf1 : Int) : Scalar)
        let weight : Scalar := 1 - desired / total
        let final_tf := interpolate tf1.transform tf2.transform weight
        .ok (to_transform_stamped final_tf tf2.header.frame_id tf2.child_frame_id time)

/-! ### TfBuffer (src/src/buffer.rs) -/

/-- crate::graph::TfGraphNode, the EdgeKey (child, parent). -/
structure TfGraphNode where
  child : String
  parent : String
deriving DecidableEq

/-- src/src/buffer.rs lines 26-30.  The two hash maps are modelled as
association lists; the HashSet of children is modelled as a duplicate-free
list in first-insertion order (the set's iteration order is unspecified in
the source; the model fixes one). -/
structure TfBuffer where
  child_transform_index : List (String × List String)
  transform_data : List (TfGraphNode × TfIndividualTransformChain)
deriving DecidableEq

/-- src/src/buffer.rs lines 34-36. -/
def TfBuffer.new : TfBuffer := { child_transform_index := [], transform_data := [] }

/-- HashMap::get on the child index. -/
def idxLookup : List (String × List String) → String → Option (List String)
  | [], _ => none
  | (k, cs) :: rest, f => if k = f then some cs else idxLookup rest f

/-- Neighbor set of a frame (empty when the frame has no entry). -/
def childrenOf (idx : List (String × List String)) (f : String) : List String :=
  (idxLookup idx f).getD []

/-- The index update of add_transform (buffer.rs lines 48-56): ensure the
parent has an entry and add the child to its set. -/
def idxInsertChild : List (String × List String) → String → String → List (String × List String)
  | [], p, c => [(p, [c])]
  | (k, cs) :: rest, p, c =>
      if k = p then (k, if cs.contains c then cs else cs ++ [c]) :: rest
      else (k, cs) :: idxInsertChild rest p c

/-- HashMap::get on the edge map. -/
def dataLookup : List (TfGraphNode × TfIndividualTransformChain) → TfGraphNode →
    Option TfIndividualTransformChain
  | [], _ => none
  | (k, c) :: rest, q => if k = q then some c else dataLookup rest q

/-- In-place mutation of an existing entry of the edge map (get_mut). -/
def dataUpdate : List (TfGraphNode × TfIndividualTransformChain) → TfGraphNode →
    TfIndividualTransformChain → List (TfGraphNode × TfIndividualTransformChain)
  | [], _, _ => []
  | (k, c) :: rest, q, v =>
      if k = q then (k, v) :: rest else (k, c) :: dataUpdate rest q v

/-- src/src/buffer.rs lines 46-69. -/
def TfBuffer.add_transform (buf : TfBuffer) (t : TransformStamped) (static_tf : Bool) :
    TfBuffer :=
  let idx := idxInsertChild buf.child_transform_index t.header.frame_id t.child_frame_id
  let key : TfGraphNode := { child := t.child_frame_id, parent := t.header.frame_id }
  let data :=
    match dataLookup buf.transform_data key with
    | some c => dataUpdate buf.transform_data key (c.add_to_buffer t)
    | none =>
        buf.transform_data ++
          [(key, (TfIndividualTransformChain.new static_tf).add_to_buffer t)]
  { child_transform_index := idx, transform_data := data }

/-- src/src/buffer.rs lines 38-44: record each transform of the batch and its
algebraic inverse. -/
def TfBuffer.handle_incoming_transforms (buf : TfBuffer) (msgs : List TransformStamped)
    (static_tf : Bool) : TfBuffer :=
  msgs.foldl
    (fun b t => (b.add_transform t static_tf).add_transform (get_inverse t) static_tf) buf

/-! ### Path search (src/src/buffer.rs lines 72-115)

The source pushes to and pops from the front of one VecDeque, so the frontier
is a stack; the model uses a plain list with cons/head.  The while loop of the
source always terminates (each frame is pushed at most once); the model runs it
on a fuel larger than the number of possible loop iterations. -/

/-- The inner for-loop of the search (buffer.rs lines 88-95): push each
unvisited child to the front of the frontier, mark it visited and record its
parent pointer. -/
def expand (cur : String) :
    List String → List String → List String → List (String × String) →
      List String × List String × List (String × String)
  | [], fr, vis, par => (fr, vis, par)
  | v :: rest, fr, vis, par =>
      if vis.contains v then expand cur rest fr vis par
      else expand cur rest (v :: fr) (v :: vis) ((v, cur) :: par)

/-- The while loop of the search (buffer.rs lines 80-100), returning the
parent-pointer map.  Stops when the frontier empties or `dst` is dequeued. -/
def searchLoop (idx : List (String × List String)) (dst : String) :
    Nat → List String → List String → List (String × String) → List (String × String)
  | 0, _, _, par => par
  | _ + 1, [], _, par => par
  | fuel + 1, cur :: rest, vis, par =>
      if cur = dst then par
      else
        match idxLookup idx cur with
        | none => searchLoop idx dst fuel rest vis par
        | some cs =>
            let s := expand cur cs rest vis par
            searchLoop idx dst fuel s.1 s.2.1 s.2.2

/-- HashMap::get on the parent-pointer map. -/
def lookupParent : List (String × String) → String → Option String
  | [], _ => none
  | (k, v) :: rest, q => if k = q then some v else lookupParent rest q

/-- The reconstruction loop of the search (buffer.rs lines 101-113): follow
parent pointers from `dst` back to `src`, collecting the frames in path order.
`none` models a missing parent pointer (the source returns
CouldNotFindTransform there); the fuel is larger than any acyclic chain of
parent pointers, and the pointers recorded by `searchLoop` are acyclic. -/
def walkUp (par : List (String × String)) (src : String) : Nat → String → Option (List String)
  | 0, _ => none
  | fuel + 1, r =>
      if r = src then some []
      else
        match lookupParent par r with
        | none => none
        | some u =>
            match walkUp par src fuel u with
            | none => none
            | some p => some (p ++ [r])

/-- Total number of child entries of the index: an upper bound on the number
of pushes the search can perform after the initial one. -/
def totalChildrenLen (idx : List (String × List String)) : Nat :=
  idx.foldl (fun n e => n + e.2.length) 0

/-- src/src/buffer.rs lines 72-115. -/
def retrieve_transform_path (idx : List (String × List String)) (src dst : String) :
    Except TfError (List String) :=
  let par := searchLoop idx dst (totalChildrenLen idx + 2) [src] [src] []
  match walkUp par src (par.length + 1) dst with
  | some p => .ok p
  | none => .error TfError.CouldNotFindTransform

/-- `isPathB idx a p b` holds when `p` is a chain of recorded edges leading
from `a` to `b` (each hop a direct child relation of the index). -/
def isPathB (idx : List (String × List String)) : String → List String → String → Bool
  | cur, [], dst => cur == dst
  | cur, v :: rest, dst => (childrenOf idx cur).contains v && isPathB idx v rest dst

/-! ### Lookup (src/src/buffer.rs lines 118-189) -/

/-- The per-edge collection loop of lookup_transform (buffer.rs lines 127-147):
walk the path, fetch each edge's time series (`unwrap` panics when it is
missing) and its closest transform, collecting the transforms in path order. -/
def collectTransforms (buf : TfBuffer) (time : Time) :
    String → List String → PResult (List Transform)
  | _, [] => .ok []
  | first, intermediate :: rest =>
      match dataLookup buf.transform_data { child := intermediate, parent := first } with
      | none => .crash
      | some cache =>
          match cache.get_closest_transform time with
          | .crash => .crash
          | .error e => .error e
          | .ok ts =>
              match collectTransforms buf time intermediate rest with
              | .crash => .crash
              | .error e => .error e
              | .ok l => .ok (ts.transform :: l)

/-- src/src/buffer.rs lines 121-166.  Faithful to the source, including line
161, where the z component of the returned translation is copied from
`final_tf.rotation.z` rather than `final_tf.translation.z`. -/
def TfBuffer.lookup_transform (buf : TfBuffer) (source_frame target_frame : String)
    (time : Time) : PResult TransformStamped :=
  match retrieve_transform_path buf.child_transform_index source_frame target_frame with
  | .error e => .error e
  | .ok path =>
      match collectTransforms buf time source_frame path with
      | .crash => .crash
      | .error e => .error e
      | .ok tflist =>
          let final_tf := chain_transforms tflist
          .ok { child_frame_id := target_frame
                header := { frame_id := source_frame, stamp := time, seq := 1 }
                transform :=
                  { rotation :=
                      { x := final_tf.rotation.x, y := final_tf.rotation.y,
                        z := final_tf.rotation.z, w := final_tf.rotation.w }
                    translation :=
                      { x := final_tf.translation.x, y := final_tf.translation.y,
                        z := final_tf.rotation.z } } }

/-- src/src/buffer.rs lines 176-185. -/
def TfBuffer.lookup_transform_with_time_travel (buf : TfBuffer)
    (target_frame : String) (target_time : Time)
    (source_frame : String) (source_time : Time) (fixed_frame : String) :
    PResult TransformStamped :=
  match buf.lookup_transform source_frame fixed_frame source_time with
  | .crash => .crash
  | .error e => .error e
  | .ok source_tf =>
      match buf.lookup_transform target_frame fixed_frame target_time with
      | .crash => .crash
      | .error e => .error e
      | .ok target_tf =>
          let tfs := invert_transform source_tf.transform
          let result := chain_transforms [target_tf.transform, tfs]
          .ok (to_transform_stamped result source_frame target_frame source_time)

deriving instance DecidableEq for Except

/-! ### Helper lemmas about the modelled math and the time-series buffer -/

theorem compose_identity_left (t : Transform) : compose identityTransform t = t := by
  obtain ⟨⟨qx, qy, qz, qw⟩, ⟨vx, vy, vz⟩⟩ := t
  simp only [compose, identityTransform, qmul, qrotate, qconj, vadd]
  norm_num

theorem chain_transforms_pair (a b : Transform) :
    chain_transforms [a, b] = compose a b := by
  simp only [chain_transforms, List.foldl]
  rw [compose_identity_left]

theorem chain_transforms_single (t : Transform) : chain_transforms [t] = t := by
  simp only [chain_transforms, List.foldl]
  exact compose_identity_left t

theorem length_insertByStamp (m : TransformStamped) (l : List TransformStamped) :
    (insertByStamp m l).length = l.length + 1 := by
  induction l with
  | nil => rfl
  | cons x xs ih =>
      simp only [insertByStamp]
      split <;> simp [ih]

theorem mem_insertByStamp {y m : TransformStamped} {l : List TransformStamped} :
    y ∈ insertByStamp m l ↔ y = m ∨ y ∈ l := by
  induction l with
  | nil => simp [insertByStamp]
  | cons x xs ih =>
      simp only [insertByStamp]
      split
      · simp [List.mem_cons]
      · simp only [List.mem_cons, ih]
        tauto

theorem pairwise_insertByStamp {m : TransformStamped} {l : List TransformStamped}
    (h : l.Pairwise stampLE) : (insertByStamp m l).Pairwise stampLE := by
  induction l with
  | nil => simp [insertByStamp]
  | cons x xs ih =>
      rcases List.pairwise_cons.mp h with ⟨hx, hxs⟩
      simp only [insertByStamp]
      split
      · refine List.pairwise_cons.mpr ⟨?_, h⟩
        intro y hy
        rcases List.mem_cons.mp hy with rfl | hy'
        · assumption
        · have := hx y hy'
          simp only [stampLE] at *
          omega
      · refine List.pairwise_cons.mpr ⟨?_, ih hxs⟩
        intro y hy
        rcases mem_insertByStamp.mp hy with rfl | hy'
        · simp only [stampLE] at *
          omega
        · exact hx y hy'

theorem add_to_buffer_buffer_size (c : TfIndividualTransformChain) (m : TransformStamped) :
    (c.add_to_buffer m).buffer_size = c.buffer_size := by
  simp only [TfIndividualTransformChain.add_to_buffer]

theorem add_to_buffer_static (c : TfIndividualTransformChain) (m : TransformStamped) :
    (c.add_to_buffer m).static_tf = c.static_tf := by
  simp only [TfIndividualTransformChain.add_to_buffer]

theorem add_to_buffer_sorted {c : TfIndividualTransformChain} {m : TransformStamped}
    (h : c.transform_chain.Pairwise stampLE) :
    ((c.add_to_buffer m).transform_chain).Pairwise stampLE := by
  simp only [TfIndividualTransformChain.add_to_buffer]
  split
  · exact (pairwise_insertByStamp h).sublist (List.drop_sublist 1 _)
  · exact pairwise_insertByStamp h

theorem add_to_buffer_length {c : TfIndividualTransformChain} {m : TransformStamped}
    (h : c.transform_chain.length ≤ c.buffer_size) :
    (c.add_to_buffer m).transform_chain.length ≤ c.buffer_size := by
  simp only [TfIndividualTransformChain.add_to_buffer]
  split
  · simp only [List.length_drop, length_insertByStamp]
    omega
  · rename_i hle
    simp only [length_insertByStamp] at hle ⊢
    omega

theorem add_to_buffer_ne_nil (c : TfIndividualTransformChain) (m : TransformStamped)
    (hb : 1 ≤ c.buffer_size) : (c.add_to_buffer m).transform_chain ≠ [] := by
  simp only [TfIndividualTransformChain.add_to_buffer]
  split
  · rename_i hgt
    simp only [length_insertByStamp] at hgt
    intro hnil
    have := congrArg List.length hnil
    simp only [List.length_drop, length_insertByStamp, List.length_nil] at this
    omega
  · intro hnil
    have := congrArg List.length hnil
    simp only [length_insertByStamp, List.length_nil] at this
    omega

/-- The C6 loop invariant, pushed through any sequence of insertions. -/
theorem foldl_add_to_buffer_inv (msgs : List TransformStamped)
    (c : TfIndividualTransformChain)
    (h : c.transform_chain.Pairwise stampLE ∧ c.transform_chain.length ≤ c.buffer_size) :
    (msgs.foldl TfIndividualTransformChain.add_to_buffer c).transform_chain.Pairwise stampLE ∧
    (msgs.foldl TfIndividualTransformChain.add_to_buffer c).transform_chain.length ≤
      (msgs.foldl TfIndividualTransformChain.add_to_buffer c).buffer_size ∧
    (msgs.foldl TfIndividualTransformChain.add_to_buffer c).buffer_size = c.buffer_size := by
  induction msgs generalizing c with
  | nil => exact ⟨h.1, h.2, rfl⟩
  | cons m rest ih =>
      have step : (c.add_to_buffer m).transform_chain.Pairwise stampLE ∧
          (c.add_to_buffer m).transform_chain.length ≤ (c.add_to_buffer m).buffer_size := by
        refine ⟨add_to_buffer_sorted h.1, ?_⟩
        rw [add_to_buffer_buffer_size]
        exact add_to_buffer_length h.2
      have := ih (c.add_to_buffer m) step
      simp only [List.foldl_cons]
      exact ⟨this.1, this.2.1, by rw [this.2.2, add_to_buffer_buffer_size]⟩

/-- C6: every EdgeTimeSeries built by any sequence of insertions is sorted
ascending by timestamp with length at most the capacity 100, and an insertion
into a full series drops the positionally first element of the post-insertion
sequence. -/
theorem spec_c6 :
    (∀ (msgs : List TransformStamped) (st : Bool),
        (msgs.foldl TfIndividualTransformChain.add_to_buffer
            (TfIndividualTransformChain.new st)).transform_chain.Pairwise stampLE ∧
        (msgs.foldl TfIndividualTransformChain.add_to_buffer
            (TfIndividualTransformChain.new st)).transform_chain.length ≤ 100) ∧
    (∀ (c : TfIndividualTransformChain) (m : TransformStamped),
        c.buffer_size = 100 → c.transform_chain.length = 100 →
        (c.add_to_buffer m).transform_chain = (insertByStamp m c.transform_chain).drop 1) := by
  constructor
  · intro msgs st
    have h0 : (TfIndividualTransformChain.new st).transform_chain.Pairwise stampLE ∧
        (TfIndividualTransformChain.new st).transform_chain.length ≤
          (TfIndividualTransformChain.new st).buffer_size := by
      simp [TfIndividualTransformChain.new]
    obtain ⟨hs, hl, hb⟩ := foldl_add_to_buffer_inv msgs (TfIndividualTransformChain.new st) h0
    refine ⟨hs, ?_⟩
    rw [hb] at hl
    simpa [TfIndividualTransformChain.new] using hl
  · intro c m hb hlen
    simp only [TfIndividualTransformChain.add_to_buffer, length_insertByStamp, hb, hlen]
    norm_num

def c6_witness_msg : TransformStamped :=
  { header := { seq := 1, stamp := ⟨4, 0⟩, frame_id := "p" }, child_frame_id := "c",
    transform := { rotation := ⟨0, 0, 0, 1⟩, translation := ⟨1, 0, 0⟩ } }

theorem spec_c6_witness :
    ((⟨100, true, List.replicate 100 c6_witness_msg⟩ :
        TfIndividualTransformChain).add_to_buffer c6_witness_msg).transform_chain =
      (insertByStamp c6_witness_msg (List.replicate 100 c6_witness_msg)).drop 1 :=
  spec_c6.2 ⟨100, true, List.replicate 100 c6_witness_msg⟩ c6_witness_msg rfl (by simp)

/-! ### C4: static series lookup -/

def c4_first : TransformStamped :=
  { header := { seq := 1, stamp := ⟨5, 0⟩, frame_id := "p" }, child_frame_id := "c",
    transform := { rotation := ⟨0, 0, 0, 1⟩, translation := ⟨1, 0, 0⟩ } }

def c4_second : TransformStamped :=
  { header := { seq := 1, stamp := ⟨3, 0⟩, frame_id := "p" }, child_frame_id := "c",
    transform := { rotation := ⟨0, 0, 0, 1⟩, translation := ⟨2, 0, 0⟩ } }

def c4_series : TfIndividualTransformChain :=
  ((TfIndividualTransformChain.new true).add_to_buffer c4_first).add_to_buffer c4_second

/-- C4 counterexample: on a static series where the chronologically last
insertion (`c4_second`, stamp 3s) carries a timestamp below an earlier
insertion (`c4_first`, stamp 5s), closest returns `c4_first` — the positional
last of the sorted sequence — not the most recently inserted sample. -/
theorem c4_counterexample :
    c4_series.get_closest_transform ⟨0, 0⟩ = .ok c4_first ∧ c4_first ≠ c4_second := by
  decide

/-- C4 (amended): for every non-empty static EdgeTimeSeries and every query
time, closest succeeds and returns the last element of the timestamp-sorted
stored sequence (the greatest-timestamp position), which is the most recently
inserted sample only when insertions arrive in timestamp order. -/
theorem c4_amended (c : TfIndividualTransformChain) (hs : c.static_tf = true)
    (m : TransformStamped) (hl : c.transform_chain.getLast? = some m) (time : Time) :
    c.get_closest_transform time = .ok m := by
  simp [TfIndividualTransformChain.get_closest_transform, hs, hl]

theorem c4_amended_witness : c4_series.get_closest_transform ⟨7, 0⟩ = .ok c4_first :=
  c4_amended c4_series (by decide) c4_first (by decide) ⟨7, 0⟩

/-- C9: a static EdgeTimeSeries with an empty stored sequence panics (the
source indexes `len - 1` with no guard) for every query time, instead of
returning the error the spec demands. -/
theorem c9_code_bug :
    ∀ time : Time,
      (⟨100, true, []⟩ : TfIndividualTransformChain).get_closest_transform time = .crash :=
  fun _ => rfl

/-! ### C8: missing EdgeTimeSeries behind an indexed edge -/

def c8_buffer : TfBuffer :=
  { child_transform_index := [("P", ["C"])], transform_data := [] }

/-- C8: in a store whose graph index references edge P→C while the edge map
has no backing time series, lookup panics on the `unwrap` of the missing
series (buffer.rs line 130) for every query time, rather than returning the
typed `InternalInconsistency` error the spec demands. -/
theorem c8_code_bug : ∀ time : Time, c8_buffer.lookup_transform "P" "C" time = .crash :=
  fun _ => rfl

/-! ### C1: composed lookup result -/

def c1_msg : TransformStamped :=
  { header := { seq := 1, stamp := ⟨0, 0⟩, frame_id := "w" }, child_frame_id := "i",
    transform := { rotation := ⟨0, 0, 0, 1⟩, translation := ⟨0, 0, 1⟩ } }

def c1_buffer : TfBuffer := TfBuffer.new.handle_incoming_transforms [c1_msg] true

/-- C1: lookup over the single recorded edge w→i (identity rotation,
translation (0,0,1)) returns translation (0,0,0): the z component is copied
from `final_tf.rotation.z` (buffer.rs line 161) instead of the composed
translation, whose value the second conjunct computes as (0,0,1). -/
theorem c1_code_bug :
    c1_buffer.lookup_transform "w" "i" ⟨0, 0⟩ =
      .ok { header := { seq := 1, stamp := ⟨0, 0⟩, frame_id := "w" }, child_frame_id := "i",
            transform := { rotation := ⟨0, 0, 0, 1⟩, translation := ⟨0, 0, 0⟩ } } ∧
    chain_transforms [c1_msg.transform] =
      { rotation := ⟨0, 0, 0, 1⟩, translation := ⟨0, 0, 1⟩ } := by
  have hpath : retrieve_transform_path c1_buffer.child_transform_index "w" "i" =
      Except.ok ["i"] := by decide
  have hcol : collectTransforms c1_buffer ⟨0, 0⟩ "w" ["i"] = .ok [c1_msg.transform] := rfl
  constructor
  · simp only [TfBuffer.lookup_transform, hpath, hcol, chain_transforms_single]
    rfl
  · rw [chain_transforms_single]
    rfl

/-! ### C7: inverse relationship -/

def c7_msg : TransformStamped :=
  { header := { seq := 1, stamp := ⟨0, 0⟩, frame_id := "P" }, child_frame_id := "C",
    transform := { rotation := ⟨3/5, 0, 0, 4/5⟩, translation := ⟨1, 2, 3⟩ } }

def c7_buffer : TfBuffer := TfBuffer.new.handle_incoming_transforms [c7_msg] true

/-- C7: ingesting P→C does record the inverse edge (first conjunct), but
`lookup("C","P",T)` does not equal `invert(lookup("P","C",T))`: because
lookup overwrites the returned translation z with the rotation z
(buffer.rs line 161), the two sides differ far beyond any floating
tolerance (translation (-1, -86/25, 0) versus (-1, -14/25, 48/25)). -/
theorem c7_code_bug :
    (dataLookup c7_buffer.transform_data { child := "P", parent := "C" }).isSome = true ∧
    c7_buffer.lookup_transform "C" "P" ⟨0, 0⟩ =
      .ok { header := { seq := 1, stamp := ⟨0, 0⟩, frame_id := "C" }, child_frame_id := "P",
            transform := { rotation := ⟨-3/5, 0, 0, 4/5⟩, translation := ⟨-1, -86/25, 0⟩ } } ∧
    c7_buffer.lookup_transform "P" "C" ⟨0, 0⟩ =
      .ok { header := { seq := 1, stamp := ⟨0, 0⟩, frame_id := "P" }, child_frame_id := "C",
            transform := { rotation := ⟨3/5, 0, 0, 4/5⟩, translation := ⟨1, 2, 0⟩ } } ∧
    invert_transform { rotation := ⟨3/5, 0, 0, 4/5⟩, translation := ⟨1, 2, 0⟩ } ≠
      { rotation := ⟨-3/5, 0, 0, 4/5⟩, translation := ⟨-1, -86/25, 0⟩ } := by
  have hpathCP : retrieve_transform_path c7_buffer.child_transform_index "C" "P" =
      Except.ok ["P"] := by decide
  have hpathPC : retrieve_transform_path c7_buffer.child_transform_index "P" "C" =
      Except.ok ["C"] := by decide
  have hcolCP : collectTransforms c7_buffer ⟨0, 0⟩ "C" ["P"] =
      .ok [(get_inverse c7_msg).transform] := rfl
  have hcolPC : collectTransforms c7_buffer ⟨0, 0⟩ "P" ["C"] = .ok [c7_msg.transform] := rfl
  refine ⟨rfl, ?_, ?_, ?_⟩
  · simp only [TfBuffer.lookup_transform, hpathCP, hcolCP, chain_transforms_single]
    simp only [get_inverse, invert_transform, qconj, qrotate, qmul, vneg, c7_msg,
      PResult.ok.injEq, TransformStamped.mk.injEq, Header.mk.injEq, Transform.mk.injEq,
      Quaternion.mk.injEq, Vector3.mk.injEq]
    norm_num
  · simp only [TfBuffer.lookup_transform, hpathPC, hcolPC, chain_transforms_single]
    simp only [c7_msg, PResult.ok.injEq, TransformStamped.mk.injEq, Header.mk.injEq,
      Transform.mk.injEq, Quaternion.mk.injEq, Vector3.mk.injEq]
  · intro h
    have := congrArg (fun t => t.translation.y) h
    simp only [invert_transform, qconj, qrotate, qmul, vneg] at this
    norm_num at this

/-! ### C10: reachable stores have no empty time series -/

/-- Stores reachable from the empty store through the public operations.
The two lookup operations take the store immutably (`&self`) and perform no
mutation, so ingestion is the only state-changing operation. -/
inductive Reachable : TfBuffer → Prop
  | new : Reachable TfBuffer.new
  | ingest (b : TfBuffer) (msgs : List TransformStamped) (static_tf : Bool) :
      Reachable b → Reachable (b.handle_incoming_transforms msgs static_tf)

/-- Invariant of the edge map: every stored series is non-empty and has a
positive capacity. -/
def DataInv (l : List (TfGraphNode × TfIndividualTransformChain)) : Prop :=
  ∀ p ∈ l, p.2.transform_chain ≠ [] ∧ 1 ≤ p.2.buffer_size

theorem dataLookup_mem {l : List (TfGraphNode × TfIndividualTransformChain)}
    {q : TfGraphNode} {c : TfIndividualTransformChain}
    (h : dataLookup l q = some c) : (q, c) ∈ l := by
  induction l with
  | nil => simp [dataLookup] at h
  | cons x xs ih =>
      obtain ⟨k, c'⟩ := x
      simp only [dataLookup] at h
      split at h
      · rename_i heq
        cases h
        exact List.mem_cons.mpr (Or.inl (by rw [heq]))
      · exact List.mem_cons_of_mem _ (ih h)

theorem mem_dataUpdate {l : List (TfGraphNode × TfIndividualTransformChain)}
    {k : TfGraphNode} {v : TfIndividualTransformChain} {p : TfGraphNode × TfIndividualTransformChain}
    (hp : p ∈ dataUpdate l k v) : p.2 = v ∨ p ∈ l := by
  induction l with
  | nil => simp [dataUpdate] at hp
  | cons x xs ih =>
      obtain ⟨k', c'⟩ := x
      simp only [dataUpdate] at hp
      split at hp
      · rcases List.mem_cons.mp hp with rfl | h
        · exact Or.inl rfl
        · exact Or.inr (List.mem_cons_of_mem _ h)
      · rcases List.mem_cons.mp hp with rfl | h
        · exact Or.inr (List.mem_cons_self ..)
        · rcases ih h with h1 | h1
          · exact Or.inl h1
          · exact Or.inr (List.mem_cons_of_mem _ h1)

theorem add_transform_inv {b : TfBuffer} (h : DataInv b.transform_data)
    (t : TransformStamped) (st : Bool) : DataInv (b.add_transform t st).transform_data := by
  intro p hp
  simp only [TfBuffer.add_transform] at hp
  cases hdl : dataLookup b.transform_data
      { child := t.child_frame_id, parent := t.header.frame_id } with
  | some c =>
      rw [hdl] at hp
      rcases mem_dataUpdate hp with h2 | h2
      · have hc := h _ (dataLookup_mem hdl)
        rw [h2]
        exact ⟨add_to_buffer_ne_nil c t hc.2, by rw [add_to_buffer_buffer_size]; exact hc.2⟩
      · exact h p h2
  | none =>
      rw [hdl] at hp
      rcases List.mem_append.mp hp with h2 | h2
      · exact h p h2
      · have hp2 : p = (⟨t.child_frame_id, t.header.frame_id⟩,
            (TfIndividualTransformChain.new st).add_to_buffer t) := by simpa using h2
        rw [hp2]
        refine ⟨add_to_buffer_ne_nil _ t ?_, ?_⟩
        · simp [TfIndividualTransformChain.new]
        · rw [add_to_buffer_buffer_size]
          simp [TfIndividualTransformChain.new]

theorem handle_incoming_inv {b : TfBuffer} (h : DataInv b.transform_data)
    (msgs : List TransformStamped) (st : Bool) :
    DataInv (b.handle_incoming_transforms msgs st).transform_data := by
  induction msgs generalizing b with
  | nil => exact h
  | cons m rest ih =>
      show DataInv ((List.foldl _ b (m :: rest)).transform_data)
      simp only [List.foldl_cons]
      exact ih (add_transform_inv (add_transform_inv h m st) (get_inverse m) st)

theorem reachable_data_inv {b : TfBuffer} (hb : Reachable b) : DataInv b.transform_data := by
  induction hb with
  | new => intro p hp; simp [TfBuffer.new] at hp
  | ingest b msgs st _ ih => exact handle_incoming_inv ih msgs st

/-- C10: in every store reachable from the empty store via the public
operations, every EdgeTimeSeries present in the edge map has a non-empty
stored sequence: a series is created together with its first sample and no
operation removes the last sample. -/
theorem c10_series_nonempty (b : TfBuffer) (hb : Reachable b) (k : TfGraphNode)
    (c : TfIndividualTransformChain) (h : dataLookup b.transform_data k = some c) :
    c.transform_chain ≠ [] :=
  (reachable_data_inv hb _ (dataLookup_mem h)).1

def c10_msg : TransformStamped :=
  { header := { seq := 1, stamp := ⟨2, 0⟩, frame_id := "p" }, child_frame_id := "c",
    transform := { rotation := ⟨0, 0, 0, 1⟩, translation := ⟨1, 2, 3⟩ } }

def c10_buffer : TfBuffer := TfBuffer.new.handle_incoming_transforms [c10_msg] false

theorem c10_witness :
    (⟨100, false, [c10_msg]⟩ : TfIndividualTransformChain).transform_chain ≠ [] :=
  c10_series_nonempty c10_buffer
    (Reachable.ingest TfBuffer.new [c10_msg] false Reachable.new)
    { child := "c", parent := "p" } ⟨100, false, [c10_msg]⟩ rfl

/-! ### C5: time-travel lookup -/

/-- C5: a time-travel lookup succeeds exactly when both underlying lookups
succeed, and then returns the composition of the target-side lookup with the
inverted source-side lookup, stamped at `source_time` with
`frame_id = source_frame` and `child_frame_id = target_frame`; it fails with
an error exactly when one of the two underlying lookups fails with that
error. -/
theorem c5_time_travel (buf : TfBuffer) (target_frame : String) (target_time : Time)
    (source_frame : String) (source_time : Time) (fixed_frame : String) :
    (∀ s t : TransformStamped,
        buf.lookup_transform source_frame fixed_frame source_time = .ok s →
        buf.lookup_transform target_frame fixed_frame target_time = .ok t →
        buf.lookup_transform_with_time_travel target_frame target_time source_frame
            source_time fixed_frame =
          .ok { header := { seq := 0, stamp := source_time, frame_id := source_frame },
                child_frame_id := target_frame,
                transform := compose t.transform (invert_transform s.transform) }) ∧
    (∀ e : TfError,
        buf.lookup_transform_with_time_travel target_frame target_time source_frame
            source_time fixed_frame = .error e ↔
          (buf.lookup_transform source_frame fixed_frame source_time = .error e ∨
           ((∃ s, buf.lookup_transform source_frame fixed_frame source_time = .ok s) ∧
            buf.lookup_transform target_frame fixed_frame target_time = .error e))) := by
  constructor
  · intro s t hs ht
    simp only [TfBuffer.lookup_transform_with_time_travel, hs, ht, chain_transforms_pair,
      to_transform_stamped]
  · intro e
    cases hs : buf.lookup_transform source_frame fixed_frame source_time with
    | crash => simp [TfBuffer.lookup_transform_with_time_travel, hs]
    | error e2 => simp [TfBuffer.lookup_transform_with_time_travel, hs]
    | ok s =>
        cases ht : buf.lookup_transform target_frame fixed_frame target_time with
        | crash => simp [TfBuffer.lookup_transform_with_time_travel, hs, ht]
        | error e2 => simp [TfBuffer.lookup_transform_with_time_travel, hs, ht]
        | ok t => simp [TfBuffer.lookup_transform_with_time_travel, hs, ht]

theorem c5_witness :
    TfBuffer.new.lookup_transform_with_time_travel "w" ⟨0, 0⟩ "w" ⟨0, 0⟩ "w" =
      .ok { header := { seq := 0, stamp := ⟨0, 0⟩, frame_id := "w" },
            child_frame_id := "w",
            transform :=
              compose
                ({ header := { seq := 1, stamp := ⟨0, 0⟩, frame_id := "w" },
                   child_frame_id := "w",
                   transform := { rotation := ⟨0, 0, 0, 1⟩, translation := ⟨0, 0, 0⟩ } } :
                  TransformStamped).transform
                (invert_transform
                  ({ header := { seq := 1, stamp := ⟨0, 0⟩, frame_id := "w" },
                     child_frame_id := "w",
                     transform := { rotation := ⟨0, 0, 0, 1⟩, translation := ⟨0, 0, 0⟩ } } :
                    TransformStamped).transform) } :=
  (c5_time_travel TfBuffer.new "w" ⟨0, 0⟩ "w" ⟨0, 0⟩ "w").1
    { header := { seq := 1, stamp := ⟨0, 0⟩, frame_id := "w" }, child_frame_id := "w",
      transform := { rotation := ⟨0, 0, 0, 1⟩, translation := ⟨0, 0, 0⟩ } }
    { header := { seq := 1, stamp := ⟨0, 0⟩, frame_id := "w" }, child_frame_id := "w",
      transform := { rotation := ⟨0, 0, 0, 1⟩, translation := ⟨0, 0, 0⟩ } }
    rfl rfl

/-! ### C3: dynamic-series lookup case analysis -/

theorem idxOfStamp_eq_of_first {l : List TransformStamped} {t : Int} {i : Nat}
    (hi : i < l.length) (hstamp : stampNanos (l.getD i default) = t)
    (hfirst : ∀ j, j < i → stampNanos (l.getD j default) ≠ t) :
    idxOfStamp t l = i := by
  induction l generalizing i with
  | nil => simp at hi
  | cons x xs ih =>
      cases i with
      | zero =>
          simp only [List.getD_cons_zero] at hstamp
          simp [idxOfStamp, hstamp]
      | succ n =>
          have hx : stampNanos x ≠ t := by
            have := hfirst 0 (Nat.succ_pos n)
            simpa using this
          have hrec := ih (by simpa using hi) (by simpa using hstamp)
            (fun j hj => by
              have := hfirst (j + 1) (by omega)
              simpa using this)
          simp only [idxOfStamp, if_neg hx]
          omega

theorem idxOfStamp_eq_length {l : List TransformStamped} {t : Int}
    (h : ∀ m ∈ l, stampNanos m ≠ t) : idxOfStamp t l = l.length := by
  induction l with
  | nil => rfl
  | cons x xs ih =>
      have hx := h x (List.mem_cons_self ..)
      simp only [idxOfStamp, if_neg hx, List.length_cons]
      have := ih fun m hm => h m (List.mem_cons_of_mem _ hm)
      omega

theorem countBefore_eq_zero {l : List TransformStamped} {t : Int}
    (h : ∀ m ∈ l, ¬ stampNanos m < t) : countBefore t l = 0 := by
  induction l with
  | nil => rfl
  | cons x xs ih =>
      have hx := h x (List.mem_cons_self ..)
      simp only [countBefore, if_neg hx, Nat.zero_add]
      exact ih fun m hm => h m (List.mem_cons_of_mem _ hm)

theorem countBefore_eq_length {l : List TransformStamped} {t : Int}
    (h : ∀ m ∈ l, stampNanos m < t) : countBefore t l = l.length := by
  induction l with
  | nil => rfl
  | cons x xs ih =>
      have hx := h x (List.mem_cons_self ..)
      simp only [countBefore, if_pos hx, List.length_cons]
      have := ih fun m hm => h m (List.mem_cons_of_mem _ hm)
      omega

theorem getD_mem {l : List TransformStamped} {j : Nat} (h : j < l.length) :
    l.getD j default ∈ l := by
  rw [List.getD_eq_getElem l default h]
  exact List.getElem_mem h

theorem mem_getD {l : List TransformStamped} {m : TransformStamped} (h : m ∈ l) :
    ∃ j, j < l.length ∧ l.getD j default = m := by
  obtain ⟨j, hj, rfl⟩ := List.getElem_of_mem h
  exact ⟨j, hj, List.getD_eq_getElem l default hj⟩

theorem countBefore_of_iff {l : List TransformStamped} {t : Int} {k : Nat}
    (hk : k ≤ l.length)
    (h : ∀ j, j < l.length → (stampNanos (l.getD j default) < t ↔ j < k)) :
    countBefore t l = k := by
  induction l generalizing k with
  | nil =>
      simp only [List.length_nil, Nat.le_zero] at hk
      simpa [countBefore] using hk.symm
  | cons x xs ih =>
      cases k with
      | zero =>
          have hx : ¬ stampNanos x < t := by
            have := h 0 (by simp)
            simpa using this
          simp only [countBefore, if_neg hx, Nat.zero_add]
          refine countBefore_eq_zero fun m hm => ?_
          obtain ⟨j, hj, rfl⟩ := mem_getD hm
          have := h (j + 1) (by simpa using Nat.succ_lt_succ hj)
          simpa using this
      | succ n =>
          have hx : stampNanos x < t := by
            have := h 0 (by simp)
            simpa using this
          simp only [countBefore, if_pos hx]
          have := ih (by simpa using hk)
            (fun j hj => by
              have := h (j + 1) (by simpa using Nat.succ_lt_succ hj)
              simpa [Nat.succ_lt_succ_iff] using this)
          omega

theorem pairwise_getD {l : List TransformStamped} (hs : l.Pairwise stampLE)
    {i j : Nat} (hij : i < j) (hj : j < l.length) :
    stampNanos (l.getD i default) ≤ stampNanos (l.getD j default) := by
  rw [List.getD_eq_getElem l default (Nat.lt_trans hij hj), List.getD_eq_getElem l default hj]
  exact List.pairwise_iff_getElem.mp hs i j (Nat.lt_trans hij hj) hj hij

/-- C3: case analysis of closest(time) on a dynamic EdgeTimeSeries.
(1) a query at the (first) stored sample with exactly this timestamp returns
that sample unchanged; (2) a query strictly before every stored sample fails
with AttemptedLookupInPast; (3) a query strictly after every stored sample of
a non-empty series fails with AttemptedLookUpInFuture; (4) a query strictly
between two consecutive samples tf1, tf2 of a sorted series returns the
interpolation of tf1 and tf2 with weight (1 - alpha) given to tf1, where
alpha = (time - t1)/(t2 - t1) in nanoseconds, stamped at the query time with
frame_id and child_frame_id copied from tf2. -/
theorem c3_dynamic_closest (c : TfIndividualTransformChain) (hdyn : c.static_tf = false)
    (time : Time) :
    (∀ i, i < c.transform_chain.length →
        stampNanos (c.transform_chain.getD i default) = time.toNanos →
        (∀ j, j < i → stampNanos (c.transform_chain.getD j default) ≠ time.toNanos) →
        c.get_closest_transform time = .ok (c.transform_chain.getD i default)) ∧
    ((∀ m ∈ c.transform_chain, time.toNanos < stampNanos m) →
        c.get_closest_transform time = .error .AttemptedLookupInPast) ∧
    (c.transform_chain ≠ [] → (∀ m ∈ c.transform_chain, stampNanos m < time.toNanos) →
        c.get_closest_transform time = .error .AttemptedLookUpInFuture) ∧
    (c.transform_chain.Pairwise stampLE →
        ∀ k, 0 < k → k < c.transform_chain.length →
        stampNanos (c.transform_chain.getD (k - 1) default) < time.toNanos →
        time.toNanos < stampNanos (c.transform_chain.getD k default) →
        c.get_closest_transform time =
          .ok (to_transform_stamped
                (interpolate (c.transform_chain.getD (k - 1) default).transform
                  (c.transform_chain.getD k default).transform
                  (1 - ((time.toNanos -
                          stampNanos (c.transform_chain.getD (k - 1) default) : Int) : Scalar) /
                       ((stampNanos (c.transform_chain.getD k default) -
                          stampNanos (c.transform_chain.getD (k - 1) default) : Int) : Scalar)))
                (c.transform_chain.getD k default).header.frame_id
                (c.transform_chain.getD k default).child_frame_id
                time)) := by
  refine ⟨?_, ?_, ?_, ?_⟩
  · intro i hi hstamp hfirst
    have hidx := idxOfStamp_eq_of_first hi hstamp hfirst
    simp [TfIndividualTransformChain.get_closest_transform, hdyn, hidx, hi]
  · intro hall
    have hidx : idxOfStamp time.toNanos c.transform_chain = c.transform_chain.length :=
      idxOfStamp_eq_length fun m hm => by have := hall m hm; omega
    have hcnt : countBefore time.toNanos c.transform_chain = 0 :=
      countBefore_eq_zero fun m hm => by have := hall m hm; omega
    simp [TfIndividualTransformChain.get_closest_transform, hdyn, hidx, hcnt]
  · intro hne hall
    have hidx : idxOfStamp time.toNanos c.transform_chain = c.transform_chain.length :=
      idxOfStamp_eq_length fun m hm => by have := hall m hm; omega
    have hcnt : countBefore time.toNanos c.transform_chain = c.transform_chain.length :=
      countBefore_eq_length hall
    have hlen : c.transform_chain.length ≠ 0 := by
      simpa [List.length_eq_zero] using hne
    simp [TfIndividualTransformChain.get_closest_transform, hdyn, hidx, hcnt, hlen]
  · intro hsorted k hk0 hklen ht1 ht2
    have hne : ∀ m ∈ c.transform_chain, stampNanos m ≠ time.toNanos := by
      intro m hm
      obtain ⟨j, hj, rfl⟩ := mem_getD hm
      rcases Nat.lt_or_ge j k with hjk | hjk
      · rcases Nat.lt_or_ge j (k - 1) with hjk1 | hjk1
        · have := pairwise_getD hsorted hjk1 (by omega)
          omega
        · have hj1 : j = k - 1 := by omega
          rw [hj1]
          omega
      · rcases Nat.eq_or_lt_of_le hjk with rfl | hjk2
        · omega
        · have := pairwise_getD hsorted hjk2 hj
          omega
    have hidx : idxOfStamp time.toNanos c.transform_chain = c.transform_chain.length :=
      idxOfStamp_eq_length hne
    have hcnt : countBefore time.toNanos c.transform_chain = k := by
      refine countBefore_of_iff (Nat.le_of_lt hklen) fun j hj => ?_
      constructor
      · intro hlt
        by_contra hge
        have hge2 : k ≤ j := by omega
        rcases Nat.eq_or_lt_of_le hge2 with rfl | hjk2
        · omega
        · have := pairwise_getD hsorted hjk2 hj
          omega
      · intro hlt
        rcases Nat.lt_or_ge j (k - 1) with hjk1 | hjk1
        · have := pairwise_getD hsorted hjk1 (by omega)
          omega
        · have hj1 : j = k - 1 := by omega
          rw [hj1]
          omega
    have hk0' : ¬ k = 0 := by omega
    have hklen' : ¬ c.transform_chain.length ≤ k := by omega
    simp [TfIndividualTransformChain.get_closest_transform, hdyn, hidx, hcnt, hk0', hklen']

def c3_sample0 : TransformStamped :=
  { header := { seq := 1, stamp := ⟨0, 0⟩, frame_id := "p" }, child_frame_id := "c",
    transform := { rotation := ⟨0, 0, 0, 1⟩, translation := ⟨0, 0, 0⟩ } }

def c3_sample1 : TransformStamped :=
  { header := { seq := 1, stamp := ⟨2, 0⟩, frame_id := "p" }, child_frame_id := "c",
    transform := { rotation := ⟨0, 0, 0, 1⟩, translation := ⟨0, 2, 0⟩ } }

def c3_series : TfIndividualTransformChain :=
  ((TfIndividualTransformChain.new false).add_to_buffer c3_sample0).add_to_buffer c3_sample1

theorem c3_witness :
    c3_series.get_closest_transform ⟨1, 0⟩ =
      .ok (to_transform_stamped
            (interpolate (c3_series.transform_chain.getD 0 default).transform
              (c3_series.transform_chain.getD 1 default).transform
              (1 - ((Time.toNanos ⟨1, 0⟩ -
                      stampNanos (c3_series.transform_chain.getD 0 default) : Int) : Scalar) /
                   ((stampNanos (c3_series.transform_chain.getD 1 default) -
                      stampNanos (c3_series.transform_chain.getD 0 default) : Int) : Scalar)))
            (c3_series.transform_chain.getD 1 default).header.frame_id
            (c3_series.transform_chain.getD 1 default).child_frame_id ⟨1, 0⟩) :=
  (c3_dynamic_closest c3_series rfl ⟨1, 0⟩).2.2.2 (by decide) 1 (by decide) (by decide)
    (by decide) (by decide)

/-! ### C2: path search -/

/-- Every parent-pointer entry recorded by the search is a recorded edge:
the key is a direct child of its stored parent in the index. -/
def ParentInv (idx : List (String × List String)) (par : List (String × String)) : Prop :=
  ∀ q ∈ par, q.1 ∈ childrenOf idx q.2

theorem expand_parent_inv {idx : List (String × List String)} {cur : String}
    {cs fr vis : List String} {par : List (String × String)}
    (hcs : ∀ v ∈ cs, v ∈ childrenOf idx cur) (h : ParentInv idx par) :
    ParentInv idx (expand cur cs fr vis par).2.2 := by
  induction cs generalizing fr vis par with
  | nil => exact h
  | cons v rest ih =>
      simp only [expand]
      split
      · exact ih (fun u hu => hcs u (List.mem_cons_of_mem _ hu)) h
      · refine ih (fun u hu => hcs u (List.mem_cons_of_mem _ hu)) ?_
        intro q hq
        rcases List.mem_cons.mp hq with rfl | hq2
        · exact hcs v (List.mem_cons_self ..)
        · exact h q hq2

theorem searchLoop_parent_inv {idx : List (String × List String)} {dst : String} :
    ∀ {fuel : Nat} {fr vis : List String} {par : List (String × String)},
      ParentInv idx par → ParentInv idx (searchLoop idx dst fuel fr vis par) := by
  intro fuel
  induction fuel with
  | zero => intro fr vis par h; exact h
  | succ n ih =>
      intro fr vis par h
      match fr with
      | [] => exact h
      | cur :: rest =>
          simp only [searchLoop]
          split
          · exact h
          · cases hcs : idxLookup idx cur with
            | none => exact ih h
            | some cs =>
                refine ih (expand_parent_inv ?_ h)
                intro v hv
                simp [childrenOf, hcs, hv]

theorem lookupParent_mem {par : List (String × String)} {r u : String}
    (h : lookupParent par r = some u) : (r, u) ∈ par := by
  induction par with
  | nil => simp [lookupParent] at h
  | cons x xs ih =>
      obtain ⟨k, v⟩ := x
      simp only [lookupParent] at h
      split at h
      · rename_i heq
        cases h
        exact List.mem_cons.mpr (Or.inl (by rw [heq]))
      · exact List.mem_cons_of_mem _ (ih h)

theorem isPathB_append {idx : List (String × List String)} :
    ∀ {p : List String} {s u r : String}, isPathB idx s p u = true →
      r ∈ childrenOf idx u → isPathB idx s (p ++ [r]) r = true := by
  intro p
  induction p with
  | nil =>
      intro s u r h hr
      simp only [isPathB] at h
      have hs : s = u := by simpa using h
      subst hs
      simp only [List.nil_append, isPathB]
      rw [Bool.and_eq_true]
      exact ⟨List.elem_eq_true_of_mem hr, by simp [isPathB]⟩
  | cons x xs ih =>
      intro s u r h hr
      simp only [isPathB, Bool.and_eq_true] at h
      simp only [List.cons_append, isPathB, Bool.and_eq_true]
      exact ⟨h.1, ih h.2 hr⟩

theorem walkUp_sound {idx : List (String × List String)} {par : List (String × String)}
    {src : String} (hinv : ParentInv idx par) :
    ∀ (fuel : Nat) (r : String) (p : List String),
      walkUp par src fuel r = some p → isPathB idx src p r = true := by
  intro fuel
  induction fuel with
  | zero => intro r p h; simp [walkUp] at h
  | succ n ih =>
      intro r p h
      simp only [walkUp] at h
      split at h
      · rename_i heq
        cases h
        simp [isPathB, heq]
      · split at h
        · cases h
        · rename_i u hlp
          split at h
          · cases h
          · rename_i p2 hw
            cases h
            exact isPathB_append (ih u p2 hw) (hinv _ (lookupParent_mem hlp))

def c2_index : List (String × List String) :=
  [("f", ["A", "B"]), ("A", ["t"]), ("B", ["C"]), ("C", ["t"])]

/-- C2 counterexample: the search pushes and pops at the same end of its
deque (LIFO), so on this graph — where f→A→t is a 2-edge path — it returns
the 3-edge path f→B→C→t: the returned path is not of minimal edge count and
the search is not breadth-first. -/
theorem c2_counterexample :
    retrieve_transform_path c2_index "f" "t" = .ok ["B", "C", "t"] ∧
    isPathB c2_index "f" ["A", "t"] "t" = true ∧
    (["A", "t"] : List String).length < (["B", "C", "t"] : List String).length := by
  decide

/-- C2 (amended): find_path performs a stack-based (depth-first) search over
the adjacency relation starting at `src`; any successfully returned sequence
of frames is a path from `src` to `dst` along recorded edges — reconstructed
via parent pointers but not necessarily of minimal edge count — and when
`src = dst` the returned path is empty. -/
theorem c2_amended (idx : List (String × List String)) (src dst : String)
    (p : List String) (h : retrieve_transform_path idx src dst = .ok p) :
    isPathB idx src p dst = true ∧ (src = dst → p = []) := by
  constructor
  · simp only [retrieve_transform_path] at h
    split at h
    · rename_i p2 hw
      cases h
      exact walkUp_sound (searchLoop_parent_inv (fun q hq => by simp at hq)) _ _ _ hw
    · cases h
  · intro heq
    subst heq
    simp only [retrieve_transform_path, walkUp, if_pos rfl] at h
    cases h
    rfl

theorem c2_amended_witness :
    isPathB c2_index "f" ["B", "C", "t"] "t" = true ∧
      ("f" = "t" → (["B", "C", "t"] : List String) = []) :=
  c2_amended c2_index "f" "t" ["B", "C", "t"] (by decide)

end RustTf
